import Mathlib

/-!
Verification of `monte_carlo_pi.py`.

The script estimates π by Monte Carlo sampling.  Its randomness comes from
NumPy's global generator; we embed that as an explicit state `σ` threaded
through every draw, with an abstract one-draw function `step : σ → ℚ × σ`
standing for one call producing a uniform sample in `[0,1)`.  Sampled values
and arithmetic are modelled over `ℚ` (the structural claims under
verification are about exact ratios `4·k/n`, not about rounding).

NumPy's true division of an integer by zero does not raise: it emits a
runtime warning and evaluates to NaN.  We model a NumPy floating-point
result as `NpFloat` (NaN or a finite value) and, since one claim is about
a possible uncaught Python exception, wrap results in `Except PyError` so
that "the call raises" is expressible; the faithful embedding of the
division then never produces the `error` branch.
-/

namespace MonteCarloPi

/-- A Python-level exception that a numeric operation could raise. -/
inductive PyError where
  | zeroDivisionError : PyError
deriving DecidableEq

/-- A NumPy floating-point result: NaN or a finite value (modelled exactly as a rational). -/
inductive NpFloat where
  | nan : NpFloat
  | val : ℚ → NpFloat
deriving DecidableEq

/-- NumPy true division of a (numpy integer) numerator by a natural divisor:
division by zero emits a runtime warning and evaluates to NaN — it does not raise. -/
def npTrueDiv (a : ℚ) (n : ℕ) : Except PyError NpFloat :=
  Except.ok (if n = 0 then NpFloat.nan else NpFloat.val (a / n))

/-- `np.random.uniform(0, 1, n)`: draw `n` values by iterating the generator step. -/
def uniformDraws {σ : Type} (step : σ → ℚ × σ) : ℕ → σ → List ℚ × σ
  | 0, s => ([], s)
  | n + 1, s =>
      let (v, s1) := step s
      let (rest, s2) := uniformDraws step n s1
      (v :: rest, s2)

/-- `inside_circle = (x**2 + y**2) <= 1`, elementwise over the two sample arrays. -/
def inside_circle (x y : List ℚ) : List Bool :=
  List.zipWith (fun a b => decide (a ^ 2 + b ^ 2 ≤ 1)) x y

/-- `points_inside = np.sum(inside_circle)`: the number of `True` entries. -/
def points_inside (bs : List Bool) : ℕ := bs.count true

/-- `estimate_pi(n)`: draws the `x` array then the `y` array from the generator
state, counts index pairs inside the quarter circle, and returns
`4 * points_inside / n` under NumPy division semantics, together with the
generator state left behind. -/
def estimate_pi {σ : Type} (step : σ → ℚ × σ) (n : ℕ) (s : σ) :
    Except PyError NpFloat × σ :=
  let xd := uniformDraws step n s
  let yd := uniformDraws step n xd.2
  (npTrueDiv (4 * (points_inside (inside_circle xd.1 yd.1) : ℚ)) n, yd.2)

/-- A concrete toy generator used to instantiate witnesses: emits `(s mod 10)/10 ∈ [0,1)`
and increments its counter. -/
def toyStep (s : ℕ) : ℚ × ℕ := (((s % 10 : ℕ) : ℚ) / 10, s + 1)

/-- A generator that replays a fixed list of draws (and `0` once exhausted);
used to realize arbitrary prescribed sample sequences. -/
def listStep : List ℚ → ℚ × List ℚ
  | [] => (0, [])
  | a :: rest => (a, rest)

theorem uniformDraws_length {σ : Type} (step : σ → ℚ × σ) :
    ∀ (n : ℕ) (s : σ), (uniformDraws step n s).1.length = n := by
  intro n
  induction n with
  | zero => intro s; rfl
  | succ m ih =>
      intro s
      simp [uniformDraws, ih]

theorem points_inside_le (x y : List ℚ) :
    points_inside (inside_circle x y) ≤ x.length := by
  calc points_inside (inside_circle x y)
      ≤ (inside_circle x y).length := List.count_le_length _ _
    _ ≤ x.length := by
        simp [inside_circle]

theorem points_inside_eq_countP (x y : List ℚ) :
    points_inside (inside_circle x y) =
      (x.zip y).countP (fun p => decide (p.1 ^ 2 + p.2 ^ 2 ≤ 1)) := by
  induction x generalizing y with
  | nil => cases y <;> rfl
  | cons a l ih =>
      cases y with
      | nil => rfl
      | cons b m =>
          simp only [inside_circle, points_inside] at ih ⊢
          simp [List.zip_cons_cons, List.count_cons, List.countP_cons, ih m]

/-- One interaction with the process-wide NumPy generator: `np.random.seed(k)`
or a call `estimate_pi(n)` that consumes random state. -/
inductive RngOp where
  | seed : ℕ → RngOp
  | runEstimate : ℕ → RngOp

/-- A pseudo-random generator implementation: how a seed initializes the state,
and how one uniform draw advances it. -/
structure Rng (σ : Type) where
  init : ℕ → σ
  step : σ → ℚ × σ

/-- Run a sequence of seed / estimate operations against the global generator
state, collecting the estimates in order. -/
def runOps {σ : Type} (g : Rng σ) : List RngOp → σ → List (Except PyError NpFloat) × σ
  | [], s => ([], s)
  | RngOp.seed k :: rest, _s => runOps g rest (g.init k)
  | RngOp.runEstimate n :: rest, s =>
      let r := estimate_pi g.step n s
      let out := runOps g rest r.2
      (r.1 :: out.1, out.2)

/-- C2: for every n ≥ 1 and every realization of the random draws, the value
returned by `estimate_pi(n)` is a finite float lying in the closed interval
[0, 4]. -/
theorem estimate_pi_range {σ : Type} (step : σ → ℚ × σ) (s : σ) (n : ℕ) (hn : 1 ≤ n) :
    ∃ q : ℚ, (estimate_pi step n s).1 = Except.ok (NpFloat.val q) ∧ 0 ≤ q ∧ q ≤ 4 := by
  have hk : points_inside (inside_circle (uniformDraws step n s).1
      (uniformDraws step n (uniformDraws step n s).2).1) ≤ n := by
    have h := points_inside_le (uniformDraws step n s).1
      (uniformDraws step n (uniformDraws step n s).2).1
    rwa [uniformDraws_length] at h
  have hn0 : (0 : ℚ) < n := by
    have : 0 < n := hn
    exact_mod_cast this
  refine ⟨4 * (points_inside (inside_circle (uniformDraws step n s).1
      (uniformDraws step n (uniformDraws step n s).2).1) : ℚ) / n, ?_, ?_, ?_⟩
  · simp [estimate_pi, npTrueDiv, show n ≠ 0 by omega]
  · positivity
  · rw [div_le_iff₀ hn0]
    have hkq : (points_inside (inside_circle (uniformDraws step n s).1
        (uniformDraws step n (uniformDraws step n s).2).1) : ℚ) ≤ (n : ℚ) := by
      exact_mod_cast hk
    nlinarith

/-- C2 witness: the range theorem instantiated at the toy generator, state 0,
n = 4. -/
theorem estimate_pi_range_witness :
    ∃ q : ℚ, (estimate_pi toyStep 4 0).1 = Except.ok (NpFloat.val q) ∧ 0 ≤ q ∧ q ≤ 4 :=
  estimate_pi_range toyStep 0 4 (by decide)

/-- C3: the estimator is a deterministic function of the generator seed and n:
seeding with k and invoking `estimate_pi(n)`, then seeding with the same k and
invoking it again, yields two bit-identical results. -/
theorem estimate_pi_deterministic {σ : Type} (g : Rng σ) (k n : ℕ) (s : σ) :
    ∃ r s2, runOps g [RngOp.seed k, RngOp.runEstimate n,
        RngOp.seed k, RngOp.runEstimate n] s = ([r, r], s2) ∧
      r = (estimate_pi g.step n (g.init k)).1 := by
  exact ⟨(estimate_pi g.step n (g.init k)).1, (estimate_pi g.step n (g.init k)).2, rfl, rfl⟩

/-- C6 counterexample: calling `estimate_pi` with n = 0 does not fail with an
uncaught numeric fault: at a concrete generator state it returns the value NaN
(NumPy true division by zero warns and yields NaN), and in particular it does
not raise ZeroDivisionError. -/
theorem estimate_pi_zero_no_fault :
    (estimate_pi toyStep 0 17).1 = Except.ok NpFloat.nan ∧
      (estimate_pi toyStep 0 17).1 ≠ Except.error PyError.zeroDivisionError := by
  exact ⟨rfl, by simp [estimate_pi, npTrueDiv]⟩

/-- C6 amended: invoking `estimate_pi` with n = 0 does not fault: for every
generator, the NumPy division 4·0/0 evaluates to NaN and that NaN is returned
to the caller. -/
theorem estimate_pi_zero_returns_nan {σ : Type} (step : σ → ℚ × σ) (s : σ) :
    (estimate_pi step 0 s).1 = Except.ok NpFloat.nan := rfl

/-- C10: with n = 0 no exception is raised: zero samples are drawn, the count
of inside points over them is 0, and the division 4·0/0 under NumPy semantics
evaluates to NaN, which is returned as the estimate (the state is left
untouched since no draw happened). -/
theorem estimate_pi_zero_nan_result {σ : Type} (step : σ → ℚ × σ) (s : σ) :
    (uniformDraws step 0 s).1 = [] ∧
      points_inside (inside_circle (uniformDraws step 0 s).1
        (uniformDraws step 0 (uniformDraws step 0 s).2).1) = 0 ∧
      (estimate_pi step 0 s).1 = Except.ok NpFloat.nan ∧
      (estimate_pi step 0 s).2 = s := by
  exact ⟨rfl, rfl, rfl, rfl⟩

theorem uniformDraws_listStep (n : ℕ) :
    ∀ l : List ℚ, n ≤ l.length → uniformDraws listStep n l = (l.take n, l.drop n) := by
  induction n with
  | zero => intro l _; simp [uniformDraws]
  | succ m ih =>
      intro l h
      cases l with
      | nil => simp at h
      | cons a t =>
          have hm : m ≤ t.length := by simpa using Nat.succ_le_succ_iff.mp (by simpa using h)
          simp [uniformDraws, listStep, ih t hm]

theorem inside_count_replicate (k m : ℕ) :
    points_inside (inside_circle (List.replicate k 0 ++ List.replicate m (9 / 10))
      (List.replicate k 0 ++ List.replicate m (9 / 10))) = k := by
  unfold inside_circle points_inside
  rw [List.zipWith_append _ _ _ _ _ (by simp)]
  simp [List.zipWith_replicate]
  norm_num
  simp [List.count_replicate]

theorem four_mul_div_card (n : ℕ) (hn : 1 ≤ n) :
    ((Finset.range (n + 1)).image (fun k : ℕ => (4 * k / n : ℚ))).card = n + 1 := by
  rw [Finset.card_image_of_injOn, Finset.card_range]
  intro a _ b _ hab
  have hn0 : (n : ℚ) ≠ 0 := Nat.cast_ne_zero.mpr (by omega)
  field_simp at hab
  exact_mod_cast hab

/-- C1: for n ≥ 1, `estimate_pi(n)` draws an array of n x-samples and then an
array of n y-samples from the generator (forming n index pairs), computes the
indicator x² + y² ≤ 1 for each pair, sums the true values, and returns 4 times
the fraction of pairs inside, as a finite float.  (Uniformity and independence
are distributional properties of the underlying generator, abstracted here by
`step`.) -/
theorem estimate_pi_fraction {σ : Type} (step : σ → ℚ × σ) (s : σ) (n : ℕ) (hn : 1 ≤ n) :
    (uniformDraws step n s).1.length = n ∧
    (uniformDraws step n (uniformDraws step n s).2).1.length = n ∧
    (estimate_pi step n s).1 = Except.ok (NpFloat.val (4 *
      ((((uniformDraws step n s).1.zip
            (uniformDraws step n (uniformDraws step n s).2).1).countP
          (fun p => decide (p.1 ^ 2 + p.2 ^ 2 ≤ 1)) : ℚ) / n))) := by
  refine ⟨uniformDraws_length step n s, uniformDraws_length step n _, ?_⟩
  simp [estimate_pi, npTrueDiv, show n ≠ 0 by omega, points_inside_eq_countP, mul_div_assoc]

/-- C1 witness: the draw/indicator/fraction theorem instantiated at the toy
generator, state 0, n = 3. -/
theorem estimate_pi_fraction_witness :
    (uniformDraws toyStep 3 0).1.length = 3 ∧
    (uniformDraws toyStep 3 (uniformDraws toyStep 3 0).2).1.length = 3 ∧
    (estimate_pi toyStep 3 0).1 = Except.ok (NpFloat.val (4 *
      ((((uniformDraws toyStep 3 0).1.zip
            (uniformDraws toyStep 3 (uniformDraws toyStep 3 0).2).1).countP
          (fun p => decide (p.1 ^ 2 + p.2 ^ 2 ≤ 1)) : ℚ) / ((3 : ℕ) : ℚ)))) :=
  estimate_pi_fraction toyStep 0 3 (by decide)

/-- C9: for n ≥ 1 and every realization, `estimate_pi(n)` returns 4·k/n where
k is the count of sampled pairs with x² + y² ≤ 1 and 0 ≤ k ≤ n; every such
value is attained by some draws from [0,1); and those values are exactly n + 1
distinct rationals. -/
theorem estimate_pi_value_set {σ : Type} (step : σ → ℚ × σ) (s : σ) (n : ℕ) (hn : 1 ≤ n) :
    (∃ k ≤ n, k = points_inside (inside_circle (uniformDraws step n s).1
        (uniformDraws step n (uniformDraws step n s).2).1) ∧
      (estimate_pi step n s).1 = Except.ok (NpFloat.val (4 * k / n))) ∧
    (∀ k ≤ n, ∃ draws : List ℚ, (∀ q ∈ draws, 0 ≤ q ∧ q < 1) ∧
      (estimate_pi listStep n draws).1 = Except.ok (NpFloat.val (4 * k / n))) ∧
    ((Finset.range (n + 1)).image (fun k : ℕ => (4 * k / n : ℚ))).card = n + 1 := by
  refine ⟨?_, ?_, four_mul_div_card n hn⟩
  · refine ⟨points_inside (inside_circle (uniformDraws step n s).1
        (uniformDraws step n (uniformDraws step n s).2).1), ?_, rfl, ?_⟩
    · have h := points_inside_le (uniformDraws step n s).1
        (uniformDraws step n (uniformDraws step n s).2).1
      rwa [uniformDraws_length] at h
    · simp [estimate_pi, npTrueDiv, show n ≠ 0 by omega]
  · intro k hk
    refine ⟨(List.replicate k 0 ++ List.replicate (n - k) (9 / 10)) ++
      (List.replicate k 0 ++ List.replicate (n - k) (9 / 10)), ?_, ?_⟩
    · intro q hq
      simp only [List.mem_append, List.mem_replicate] at hq
      rcases hq with (⟨_, h⟩ | ⟨_, h⟩) | (⟨_, h⟩ | ⟨_, h⟩) <;> rw [h] <;> norm_num
    · have hlen : (List.replicate k (0 : ℚ) ++ List.replicate (n - k) ((9 : ℚ) / 10)).length = n := by
        simp; omega
      have h1 : uniformDraws listStep n
          ((List.replicate k (0 : ℚ) ++ List.replicate (n - k) ((9 : ℚ) / 10)) ++
            (List.replicate k 0 ++ List.replicate (n - k) (9 / 10))) =
          (List.replicate k 0 ++ List.replicate (n - k) (9 / 10),
            List.replicate k 0 ++ List.replicate (n - k) (9 / 10)) := by
        rw [uniformDraws_listStep n _ (by simp; omega)]
        rw [List.take_left' hlen, List.drop_left' hlen]
      have h2 : uniformDraws listStep n
          (List.replicate k (0 : ℚ) ++ List.replicate (n - k) ((9 : ℚ) / 10)) =
          (List.replicate k 0 ++ List.replicate (n - k) (9 / 10), []) := by
        rw [uniformDraws_listStep n _ (le_of_eq hlen.symm),
          List.take_of_length_le (le_of_eq hlen), List.drop_eq_nil_of_le (le_of_eq hlen)]
      simp only [estimate_pi, h1, h2, npTrueDiv, inside_count_replicate]
      simp [show n ≠ 0 by omega]

/-- C9 witness: the value-set theorem instantiated at the toy generator,
state 0, n = 2. -/
theorem estimate_pi_value_set_witness :
    (∃ k ≤ 2, k = points_inside (inside_circle (uniformDraws toyStep 2 0).1
        (uniformDraws toyStep 2 (uniformDraws toyStep 2 0).2).1) ∧
      (estimate_pi toyStep 2 0).1 = Except.ok (NpFloat.val (4 * k / ((2 : ℕ) : ℚ)))) ∧
    (∀ k : ℕ, k ≤ 2 → ∃ draws : List ℚ, (∀ q ∈ draws, 0 ≤ q ∧ q < 1) ∧
      (estimate_pi listStep 2 draws).1 = Except.ok (NpFloat.val (4 * k / ((2 : ℕ) : ℚ)))) ∧
    ((Finset.range (2 + 1)).image (fun k : ℕ => (4 * k / ((2 : ℕ) : ℚ)))).card = 2 + 1 :=
  estimate_pi_value_set toyStep 0 2 (by decide)

/-- `np.logspace(2, 6, 50).astype(int)`: the 50 sample sizes used by the
convergence study.  Entry k is the truncation toward zero of 10^((98+4k)/49);
the list is spelled out concretely and `n_values_from_logspace` certifies
every entry against that characterization in integer arithmetic. -/
def n_values : List ℕ :=
  [100, 120, 145, 175, 212, 255, 308, 372, 449, 542,
   655, 790, 954, 1151, 1389, 1676, 2023, 2442, 2947, 3556,
   4291, 5179, 6250, 7543, 9102, 10985, 13257, 15998, 19306, 23299,
   28117, 33932, 40949, 49417, 59636, 71968, 86851, 104811, 126485, 152641,
   184206, 222299, 268269, 323745, 390693, 471486, 568986, 686648, 828642, 1000000]

/-- `m = int(10 ** ((98 + 4k)/49))`: m is the integer part of the k-th of 50
logarithmically spaced values between 10² = 10^(98/49) and 10⁶ = 10^(294/49),
phrased with 49th powers so that only natural-number arithmetic is needed. -/
def isLogspaceEntry (k m : ℕ) : Prop :=
  m ^ 49 ≤ 10 ^ (98 + 4 * k) ∧ 10 ^ (98 + 4 * k) < (m + 1) ^ 49

instance (k m : ℕ) : Decidable (isLogspaceEntry k m) :=
  inferInstanceAs (Decidable (_ ≤ _ ∧ _ < _))

set_option exponentiation.threshold 400 in
theorem n_values_from_logspace :
    ∀ p ∈ (List.range 50).zip n_values, isLogspaceEntry p.1 p.2 := by
  decide

/-- The five milestone sample sizes whose estimates get a formatted print
inside the convergence loop. -/
def milestones : List ℕ := [100, 1000, 10000, 100000, 1000000]

/-- The loop of `convergence_study()`: for each n in turn, run the estimator
(threading the generator state), append the estimate to the series, and record
a milestone print `(n, estimate)` whenever n is one of the five milestones. -/
def convergence_loop {σ : Type} (step : σ → ℚ × σ) :
    List ℕ → σ →
      List (Except PyError NpFloat) × List (ℕ × Except PyError NpFloat) × σ
  | [], s => ([], [], s)
  | n :: rest, s =>
      let r := estimate_pi step n s
      let out := convergence_loop step rest r.2
      (r.1 :: out.1, (if n ∈ milestones then [(n, r.1)] else []) ++ out.2.1, out.2.2)

/-- The numeric core of `convergence_study()`: seeds the generator with 42,
then runs the estimator once per entry of `n_values`, returning the estimate
series and the milestone prints.  (Plot rendering and image-file output are
presentation side effects outside the embedding.) -/
def convergence_study {σ : Type} (g : Rng σ) :
    List (Except PyError NpFloat) × List (ℕ × Except PyError NpFloat) :=
  let out := convergence_loop g.step n_values (g.init 42)
  (out.1, out.2.1)

theorem convergence_loop_length {σ : Type} (step : σ → ℚ × σ) :
    ∀ (ns : List ℕ) (s : σ), (convergence_loop step ns s).1.length = ns.length := by
  intro ns
  induction ns with
  | nil => intro s; rfl
  | cons n rest ih => intro s; simp [convergence_loop, ih]

theorem convergence_loop_milestone_sizes {σ : Type} (step : σ → ℚ × σ) :
    ∀ (ns : List ℕ) (s : σ),
      (convergence_loop step ns s).2.1.map Prod.fst =
        ns.filter (fun n => n ∈ milestones) := by
  intro ns
  induction ns with
  | nil => intro s; rfl
  | cons n rest ih =>
      intro s
      by_cases h : n ∈ milestones <;>
        simp [convergence_loop, ih, List.filter_cons, h]

/-- C5: the convergence study generates a series of 50 sample sizes, each the
integer cast of the corresponding one of 50 logarithmically spaced values from
10² to 10⁶ (both endpoints occur in the series), the series is monotonically
non-decreasing, and the resulting estimate series has the same length, 50. -/
theorem convergence_series_spec {σ : Type} (g : Rng σ) :
    n_values.length = 50 ∧
    (∀ p ∈ (List.range 50).zip n_values, isLogspaceEntry p.1 p.2) ∧
    List.Chain' (· ≤ ·) n_values ∧
    100 ∈ n_values ∧ 1000000 ∈ n_values ∧
    (convergence_study g).1.length = 50 := by
  refine ⟨by decide, n_values_from_logspace,
    by rw [List.chain'_iff_pairwise]; decide, by decide, by decide, ?_⟩
  show (convergence_loop g.step n_values (g.init 42)).1.length = 50
  rw [convergence_loop_length]
  decide

/-- C4 counterexample: of the five designated milestones only 100 and 1000000
ever occur in the generated sample-size series — 1000, 10000 and 100000 are
skipped by the integer-cast logarithmic grid (whose neighboring entries are
954, 1151, 9102, 10985, 86851 and 104811) — so a concrete run (with the toy
generator) triggers milestone prints only at n = 100 and n = 1000000, not at
all five. -/
theorem milestone_occurrence_counterexample :
    (1000 ∉ n_values ∧ 10000 ∉ n_values ∧ 100000 ∉ n_values) ∧
    n_values.filter (fun n => n ∈ milestones) = [100, 1000000] ∧
    (convergence_study (Rng.mk id toyStep)).2.map Prod.fst = [100, 1000000] := by
  refine ⟨by decide, by decide, ?_⟩
  show (convergence_loop toyStep n_values (id 42)).2.1.map Prod.fst = [100, 1000000]
  rw [convergence_loop_milestone_sizes]
  decide

/-- C4 amended: convergence_study prints the error versus true π at exactly
two of the five designated milestone sample sizes: the generated series
contains 100 and 1000000 (each once, in that order) and none of 1000, 10000,
100000, so exactly those two milestone prints are triggered. -/
theorem milestone_occurrence_amended {σ : Type} (g : Rng σ) :
    (convergence_study g).2.map Prod.fst = [100, 1000000] := by
  show (convergence_loop g.step n_values (g.init 42)).2.1.map Prod.fst = [100, 1000000]
  rw [convergence_loop_milestone_sizes]
  decide

/-- `np.mean`: arithmetic mean of an array, embedded over the reals. -/
noncomputable def np_mean (xs : List ℝ) : ℝ := xs.sum / xs.length

/-- `np.std(xs, ddof)`: square root of the average squared deviation from the
mean, where the averaging divisor is `N - ddof`. -/
noncomputable def np_std (xs : List ℝ) (ddof : ℕ) : ℝ :=
  Real.sqrt ((xs.map (fun x => (x - np_mean xs) ^ 2)).sum / ((xs.length : ℝ) - ddof))

/-- `sample_std = np.std(pi_estimates, ddof=1)`, as computed by the
sampling-distribution study. -/
noncomputable def sample_std (xs : List ℝ) : ℝ := np_std xs 1

/-- `theoretical_mean = np.pi`, as computed by the sampling-distribution
study. -/
noncomputable def theoretical_mean : ℝ := Real.pi

/-- `theoretical_std = np.sqrt(np.pi * (4 - np.pi) / n)`, as computed by the
sampling-distribution study. -/
noncomputable def theoretical_std (n : ℕ) : ℝ :=
  Real.sqrt (Real.pi * (4 - Real.pi) / n)

/-- The spec's unbiased (Bessel-corrected) sample standard deviation: squared
deviations from the mean averaged with divisor N − 1, under the root. -/
noncomputable def unbiasedSampleStd (xs : List ℝ) : ℝ :=
  Real.sqrt ((xs.map (fun x => (x - np_mean xs) ^ 2)).sum / ((xs.length : ℝ) - 1))

/-- The spec's derivation of the estimator's theoretical standard deviation:
the inside/outside indicator is Bernoulli with success probability p = π/4, so
the estimate 4·K/n has variance 4²·p·(1−p)/n; this is that variance's root. -/
noncomputable def cltStd (n : ℕ) : ℝ :=
  Real.sqrt (4 ^ 2 * (Real.pi / 4) * (1 - Real.pi / 4) / n)

/-- C8: the sampling-distribution study's theoretical mean is π, its
theoretical standard deviation √(π(4−π)/n) coincides with the
binomial-variance derivation √(4²·(π/4)(1−π/4)/n) of the spec, and its sample
standard deviation (ddof = 1) is the unbiased sample standard deviation. -/
theorem summary_statistics_spec (n : ℕ) (xs : List ℝ) :
    theoretical_mean = Real.pi ∧
    theoretical_std n = cltStd n ∧
    sample_std xs = unbiasedSampleStd xs := by
  refine ⟨rfl, ?_, ?_⟩
  · unfold theoretical_std cltStd
    congr 1
    ring
  · unfold sample_std np_std unbiasedSampleStd
    norm_num

end MonteCarloPi
